import Mathlib

/-!
Verification of the replicated chat system (Design_Exercise_4).

This file shallowly embeds the data model and the operations of the
repository in Lean and proves or refutes the frozen claims about them.

Sources embedded here:
- chat_system/common/user.py              (Message, User, mailbox operations)
- chat_system/server/account_manager.py   (AccountManager: accounts, login_info)
- chat_system/server/server_state.py      (legacy ServerState used by server.py)
- chat_system/server/server.py            (legacy ChatServicer.SendMessage)
- chat_system/server/raft_server.py       (RaftNode and RaftServicer: the live
  Raft implementation driven from chat_system/server/__main__.py)

Python dicts are modelled as association lists in insertion order (dict keys
are unique; insertion of a fresh key appends).  Bytes values are List Nat.
Wall-clock reads, timers, gRPC traffic, disk writes and lock operations have
no effect on the embedded state and are dropped; where an operation performs
only such an effect this is noted next to the definition.  Python exceptions
are modelled with Except.
-/

namespace ChatSystem

/-- Bytes (Python bytes objects) as lists of byte values. -/
abbrev Bytes := List Nat

/-- common/user.py: dataclass Message(id, sender, content). -/
structure Message where
  id : Nat
  sender : String
  content : String
deriving DecidableEq, Repr, Inhabited

/-- common/user.py: dataclass User(name, message_queue, read_mailbox).
The message_subscriber_queue field is a process-local live queue
(not part of replicated or persisted state) and is not modelled. -/
structure User where
  name : String
  message_queue : List Message
  read_mailbox : List Message
deriving DecidableEq, Repr, Inhabited

namespace User

/-- common/user.py get_read_messages (lines 30-38):
caps offset into [0, n], caps num_messages at n-offset, then returns the
slice read_mailbox[n-num_messages-offset : n-offset] (or read_mailbox[:n-offset]
when the capped num_messages is negative).  Python slicing on the clamped
bounds is take/drop; both bounds are nonnegative after the clamps. -/
def get_read_messages (u : User) (offset num_messages : Int) : List Message :=
  let n : Int := u.read_mailbox.length
  let offset1 : Int := max 0 (min n offset)
  let num1 : Int := min num_messages (n - offset1)
  if num1 < 0 then
    u.read_mailbox.take (n - offset1).toNat
  else
    (u.read_mailbox.take (n - offset1).toNat).drop (n - num1 - offset1).toNat

/-- common/user.py pop_unread_messages (lines 47-60): a negative count means
the whole queue; the popped head segment moves to the end of read_mailbox. -/
def pop_unread_messages (u : User) (num_messages : Int) : User × List Message :=
  let n : Nat := if num_messages < 0 then u.message_queue.length else num_messages.toNat
  let messages := u.message_queue.take n
  ({ u with
      message_queue := u.message_queue.drop n
      read_mailbox := u.read_mailbox ++ messages }, messages)

/-- common/user.py delete_messages (lines 40-45). -/
def delete_messages (u : User) (message_ids : List Nat) : User :=
  { u with
      message_queue := u.message_queue.filter (fun m => m.id ∉ message_ids)
      read_mailbox := u.read_mailbox.filter (fun m => m.id ∉ message_ids) }

end User

/-- server/account_manager.py: AccountManager holds two dicts,
accounts (username -> User) and login_info (username -> (hash, salt)). -/
structure AccountManager where
  accounts : List (String × User)
  login_info : List (String × (Bytes × Bytes))
deriving DecidableEq, Repr, Inhabited

namespace AccountManager

/-- The empty manager built by AccountManager.__init__. -/
def init : AccountManager := ⟨[], []⟩

/-- account_manager.py create_account (lines 44-63).  Security.hash_password
draws a random salt, so the hashed pair is passed in as an argument; the
function body otherwise follows the source: empty name and taken name are
rejected without touching the state, otherwise a User with empty mailboxes
is stored in both dicts and None (no error) is returned. -/
def create_account (am : AccountManager) (username _password : String)
    (hashed : Bytes × Bytes) : AccountManager × Option String :=
  if username.length = 0 then
    (am, some "Invalid username")
  else if (am.accounts.lookup username).isSome then
    (am, some "Username already taken")
  else
    ({ accounts := am.accounts ++ [(username, ⟨username, [], []⟩)],
       login_info := am.login_info ++ [(username, hashed)] }, none)

/-- account_manager.py delete_account (lines 83-86):
self.accounts.pop(user_id) and self.login_info.pop(user_id).
dict.pop without a default raises KeyError when the key is missing, so the
operation is fallible; the error carries the Python exception name. -/
def delete_account (am : AccountManager) (user_id : String) :
    Except String AccountManager :=
  if (am.accounts.lookup user_id).isSome then
    if (am.login_info.lookup user_id).isSome then
      .ok { accounts := am.accounts.eraseP (fun p => p.1 == user_id),
            login_info := am.login_info.eraseP (fun p => p.1 == user_id) }
    else .error "KeyError"
  else .error "KeyError"

end AccountManager

/-! ### AccountManager snapshots (account_manager.py get_state / load_state)

get_state emits, per account in dict order, the base64-encoded credential
pair and both mailboxes as (id, sender, content) triples; load_state clears
the manager and rebuilds it from such a snapshot.  base64 is Python stdlib
(an opaque codec per the spec scope), so the snapshot is parameterised over
the encoded type beta with the encoder and decoder passed in; the round-trip
theorem assumes only that decoding inverts encoding. -/

/-- One value of the get_state dict (account_manager.py lines 17-22). -/
structure UserSnapshot (β : Type) where
  password_hash : β
  salt : β
  message_queue : List (Nat × String × String)
  read_mailbox : List (Nat × String × String)
deriving DecidableEq, Repr

/-- account_manager.py get_state line 20: (m.id, m.sender, m.content). -/
def messageToTriple (m : Message) : Nat × String × String :=
  (m.id, m.sender, m.content)

/-- account_manager.py load_state line 33: Message(*m). -/
def tripleToMessage (t : Nat × String × String) : Message :=
  ⟨t.1, t.2.1, t.2.2⟩

/-- The iteration of get_state (account_manager.py lines 14-22) over the
accounts dict: self.login_info[user_id] raises KeyError when the account has
no credential record, so the snapshot is Option-valued. -/
def snapshotAccounts {β : Type} (enc : Bytes → β)
    (info : List (String × (Bytes × Bytes))) :
    List (String × User) → Option (List (String × UserSnapshot β))
  | [] => some []
  | (user_id, u) :: rest =>
    match info.lookup user_id, snapshotAccounts enc info rest with
    | some (h, s), some r =>
      some ((user_id,
        ⟨enc h, enc s, u.message_queue.map messageToTriple,
          u.read_mailbox.map messageToTriple⟩) :: r)
    | _, _ => none

/-- account_manager.py get_state (lines 12-23). -/
def AccountManager.get_state {β : Type} (enc : Bytes → β) (am : AccountManager) :
    Option (List (String × UserSnapshot β)) :=
  snapshotAccounts enc am.login_info am.accounts

/-- account_manager.py load_state (lines 25-38): clear both dicts, then for
each snapshot entry rebuild the User (with the username as name) and the
decoded credential pair, in snapshot order. -/
def AccountManager.load_state {β : Type} (dec : β → Bytes)
    (st : List (String × UserSnapshot β)) : AccountManager :=
  { accounts := st.map (fun p =>
      (p.1, ⟨p.1, p.2.message_queue.map tripleToMessage,
        p.2.read_mailbox.map tripleToMessage⟩)),
    login_info := st.map (fun p => (p.1, (dec p.2.password_hash, dec p.2.salt))) }

/-! ### Legacy ServerState and ChatServicer (server_state.py, server.py)

The legacy generation of the server replicates by state sync.  Its
ServerState carries the accounts dict plus a timestamp bumped on every
mutation; broadcast_server_update only performs network I/O and is dropped.
login_info is untouched by the operations embedded here and is omitted. -/

structure LegacyServerState where
  accounts : List (String × User)
  timestamp : Nat
deriving DecidableEq, Repr, Inhabited

namespace LegacyServerState

/-- server_state.py add_unread_message (lines 119-135): missing user is a
no-op; otherwise append to the message_queue and bump the timestamp. -/
def add_unread_message (ss : LegacyServerState) (user_id : String) (m : Message) :
    LegacyServerState :=
  if (ss.accounts.lookup user_id).isSome then
    { accounts := ss.accounts.map (fun p =>
        if p.1 = user_id then (p.1, { p.2 with message_queue := p.2.message_queue ++ [m] })
        else p),
      timestamp := ss.timestamp + 1 }
  else ss

/-- server_state.py add_read_message (lines 137-153). -/
def add_read_message (ss : LegacyServerState) (user_id : String) (m : Message) :
    LegacyServerState :=
  if (ss.accounts.lookup user_id).isSome then
    { accounts := ss.accounts.map (fun p =>
        if p.1 = user_id then (p.1, { p.2 with read_mailbox := p.2.read_mailbox ++ [m] })
        else p),
      timestamp := ss.timestamp + 1 }
  else ss

/-- server.py ChatServicer.SendMessage (lines 125-153).  The session table
supplies the sender name and the online scan over client_sessions supplies
the online flag; both are passed in as arguments.  The handler aborts with
NOT_FOUND when the recipient is missing; otherwise it constructs the Message
with id equal to the CURRENT server_state.timestamp (request ingress time)
and routes it into the read or unread mailbox.  The subscriber-queue push
for online recipients is process-local delivery and is not modelled. -/
def sendMessage (ss : LegacyServerState) (sender_id recipient content : String)
    (online : Bool) : Except String LegacyServerState :=
  if (ss.accounts.lookup recipient).isSome then
    let message : Message := ⟨ss.timestamp, sender_id, content⟩
    if online then .ok (ss.add_read_message recipient message)
    else .ok (ss.add_unread_message recipient message)
  else .error "Recipient not found"

end LegacyServerState

/-! ### Raft node (raft_server.py)

raft_server.py is the live consensus implementation (imported from
chat_system/server/__main__.py).  Its chat state machine state is the plain
dict self.server_state = {users, next_message_id, messages}; log entries are
dicts {term, index, data, commandType}.  The data payload is a pickled blob,
kept abstract as a String here. -/

structure RaftEntry where
  term : Nat
  index : Nat
  data : String
  commandType : String
deriving DecidableEq, Repr, Inhabited

inductive Role where
  | follower
  | candidate
  | leader
deriving DecidableEq, Repr

/-- The consensus-state bundle of RaftNode guarded by state_lock. -/
structure RaftState where
  currentTerm : Nat
  votedFor : Option String
  role : Role
  leaderId : Option String
  log : List RaftEntry
  commitIndex : Nat
  lastApplied : Nat
deriving DecidableEq, Repr

/-- The per-user record stored in server_state['users'] by raft_server.py:
{'password': ..., 'messages': {'unread': [...], 'read': [...]}} where the
mailboxes hold message ids. -/
structure RUserRec where
  password : String
  unread : List Nat
  read : List Nat
deriving DecidableEq, Repr, Inhabited

/-- raft_server.py self.server_state = {users, next_message_id, messages}. -/
structure RaftServerState where
  users : List (String × RUserRec)
  nextMessageId : Nat
  messages : List (Nat × Message)
deriving DecidableEq, Repr, Inhabited

namespace RaftServerState

/-- raft_server.py RaftNode._create_account (lines 430-437). -/
def createAccount (ss : RaftServerState) (username password : String) :
    RaftServerState × Bool :=
  if (ss.users.lookup username).isSome then (ss, false)
  else ({ ss with users := ss.users ++ [(username, ⟨password, [], []⟩)] }, true)

/-- raft_server.py RaftNode._delete_account (lines 439-443): guarded by a
membership test, so a missing name is a no-op returning False. -/
def deleteAccount (ss : RaftServerState) (username : String) :
    RaftServerState × Bool :=
  if (ss.users.lookup username).isSome then
    ({ ss with users := ss.users.eraseP (fun p => p.1 == username) }, true)
  else (ss, false)

/-- raft_server.py RaftNode._send_message (lines 445-459): the message id is
read from the replicated next_message_id counter and the counter is bumped,
all inside apply; the id is appended to the recipient's unread list. -/
def sendMessage (ss : RaftServerState) (sender recipient content : String) :
    RaftServerState × Bool :=
  if (ss.users.lookup recipient).isSome then
    let msgId := ss.nextMessageId
    let message : Message := ⟨msgId, sender, content⟩
    ({ users := ss.users.map (fun p =>
          if p.1 = recipient then (p.1, { p.2 with unread := p.2.unread ++ [msgId] })
          else p),
       nextMessageId := ss.nextMessageId + 1,
       messages := ss.messages ++ [(msgId, message)] }, true)
  else (ss, false)

end RaftServerState

namespace RaftState

/-- raft_server.py RaftNode._become_follower (lines 147-161): adopt the term,
clear the vote, drop to follower.  Timer resets are wall-clock effects. -/
def becomeFollower (st : RaftState) (term : Nat) : RaftState :=
  { st with role := .follower, currentTerm := term, votedFor := none }

end RaftState

/-- RequestVote RPC request (raft.proto fields used by the servicer).
lastLogIndex is an Int because candidates send len(log) - 1, which is -1 on
an empty log. -/
structure RVRequest where
  term : Nat
  candidateId : String
  lastLogIndex : Int
  lastLogTerm : Nat
deriving DecidableEq, Repr

structure RVResponse where
  term : Nat
  voteGranted : Bool
deriving DecidableEq, Repr

/-- raft_server.py RaftServicer.RequestVote lines 504-505:
last_log_index = len(log) - 1 (an Int, -1 on the empty log). -/
def lastLogIndexOf (log : List RaftEntry) : Int :=
  (log.length : Int) - 1

/-- raft_server.py RaftServicer.RequestVote line 505:
log[len(log)-1].term when the log is nonempty, else 0. -/
def lastLogTermOf (log : List RaftEntry) : Nat :=
  match log.getLast? with
  | some e => e.term
  | none => 0

/-- raft_server.py RaftServicer.RequestVote (lines 487-521).  Persistence
(save_raft_state) and the election-timer reset are I/O effects. -/
def handleRequestVote (st : RaftState) (req : RVRequest) : RaftState × RVResponse :=
  if req.term < st.currentTerm then
    (st, ⟨st.currentTerm, false⟩)
  else
    let st1 := if req.term > st.currentTerm then st.becomeFollower req.term else st
    let can_vote := st1.votedFor = none ∨ st1.votedFor = some req.candidateId
    let log_ok := req.lastLogTerm > lastLogTermOf st1.log ∨
      (req.lastLogTerm = lastLogTermOf st1.log ∧ req.lastLogIndex ≥ lastLogIndexOf st1.log)
    if can_vote ∧ log_ok then
      ({ st1 with votedFor := some req.candidateId }, ⟨st1.currentTerm, true⟩)
    else
      (st1, ⟨st1.currentTerm, false⟩)

/-- AppendEntries RPC request.  prevLogIndex is an Int: the handler compares
it against -1.  (Requests from the leader code always carry a value ≥ 0;
values below -1 would hit Python negative indexing and are outside the
modelled domain.) -/
structure AERequest where
  term : Nat
  leaderId : String
  prevLogIndex : Int
  prevLogTerm : Nat
  entries : List RaftEntry
  leaderCommit : Nat
deriving DecidableEq, Repr

structure AEResponse where
  term : Nat
  success : Bool
  matchIndex : Int
deriving DecidableEq, Repr

/-- raft_server.py RaftServicer.AppendEntries lines 560-569: scan the
incoming entries in order; at the first one whose index field lies inside
the local log and whose term differs, report that log position; stop the
scan at the first entry whose index is past the end of the log. -/
def findConflict (log : List RaftEntry) : List RaftEntry → Option Nat
  | [] => none
  | e :: rest =>
    if h : e.index < log.length then
      if (log.get ⟨e.index, h⟩).term ≠ e.term then some e.index
      else findConflict log rest
    else none

/-- raft_server.py RaftServicer.AppendEntries (lines 523-593).  After the
optional truncation at the conflict position, the source appends
new_entries[append_start - append_start:], i.e. the slice starting at 0:
EVERY incoming entry is appended, including those already present.  The
persistence call and the apply-queue signal are I/O effects. -/
def handleAppendEntries (st : RaftState) (req : AERequest) : RaftState × AEResponse :=
  if req.term < st.currentTerm then
    (st, ⟨st.currentTerm, false, (st.log.length : Int) - 1⟩)
  else
    let st1 := if req.term > st.currentTerm ∨ st.role = .candidate
      then st.becomeFollower req.term else st
    let st2 := { st1 with leaderId := some req.leaderId }
    if req.prevLogIndex = -1 ∨
        (0 ≤ req.prevLogIndex ∧ req.prevLogIndex < (st2.log.length : Int) ∧
          (st2.log.getD req.prevLogIndex.toNat default).term = req.prevLogTerm) then
      let log1 :=
        if req.entries = [] then st2.log
        else
          match findConflict st2.log req.entries with
          | some c => st2.log.take c ++ req.entries
          | none => st2.log ++ req.entries
      let ci1 :=
        if req.leaderCommit > st2.commitIndex then min req.leaderCommit log1.length
        else st2.commitIndex
      ({ st2 with log := log1, commitIndex := ci1 },
       ⟨st2.currentTerm, true, (log1.length : Int) - 1⟩)
    else
      (st2, ⟨st2.currentTerm, false, (st2.log.length : Int) - 1⟩)

/-- raft_server.py RaftNode._update_commit_index lines 343-347: one vote for
the leader itself plus one for every peer whose match_index is at least n. -/
def majorityCount (ms : List Nat) (n : Nat) : Nat :=
  1 + (ms.filter (fun m => n ≤ m)).length

/-- The loop-body condition of _update_commit_index (lines 349-351):
count > (len(peers)+1)/2 under Python real division, i.e.
2*count > len(peers)+1, together with log[n-1].term == currentTerm. -/
def commitCond (log : List RaftEntry) (term : Nat) (ms : List Nat) (n : Nat) : Prop :=
  2 * majorityCount ms n > ms.length + 1 ∧ (log.getD (n - 1) default).term = term

instance (log : List RaftEntry) (term : Nat) (ms : List Nat) (n : Nat) :
    Decidable (commitCond log term ms n) := by
  unfold commitCond; infer_instance

/-- raft_server.py RaftNode._update_commit_index (lines 335-354): for n in
range(commit_index+1, len(log)+1), set commit_index = n whenever the
majority-and-current-term condition holds; the range bounds are evaluated
once, so the final value is the last qualifying n (or the old value). -/
def updateCommitIndex (log : List RaftEntry) (term ci : Nat) (ms : List Nat) : Nat :=
  (List.range' (ci + 1) (log.length - ci)).foldl
    (fun acc n => if commitCond log term ms n then n else acc) ci

/-- raft_server.py RaftNode._apply_log_entries inner loop (lines 363-371):
while last_applied < commit_index, bump last_applied, read
log[last_applied - 1] and apply it to the state machine.  The state-machine
application step is the g argument (in the source, _apply_command plus the
state save).  The index last_applied - 1 equals the pre-increment
last_applied, which is always nonnegative; when it is past the end of the
log the read raises IndexError, which propagates out of the loop and kills
the apply thread - the error value carries the state and the
already-incremented last_applied at the crash. -/
def applyLogEntries {α : Type} (g : α → RaftEntry → α) (log : List RaftEntry)
    (ss : α) (la ci : Nat) : Except (α × Nat) (α × Nat) :=
  if la < ci then
    match log.get? la with
    | some e => applyLogEntries g log (g ss e) (la + 1) ci
    | none => .error (ss, la + 1)
  else .ok (ss, la)
termination_by ci - la

/-! ## Claims -/

/-! ### C10: get_read_messages is total and returns a contiguous sublist -/

/-- C10: for every user state and all integer offset and num_messages
arguments (negative, zero, or past the end), get_read_messages returns a
contiguous sublist of the read mailbox of length at most the mailbox length.
The embedded function is total, matching the source: after the clamps every
slice bound is in range, so no exception can be raised, and the mailbox is
not mutated (the operation is read-only). -/
theorem C10_get_read_messages_safe (u : User) (offset num_messages : Int) :
    (∃ l1 l2, l1 ++ u.get_read_messages offset num_messages ++ l2 = u.read_mailbox) ∧
    (u.get_read_messages offset num_messages).length ≤ u.read_mailbox.length := by
  unfold User.get_read_messages
  set mb := u.read_mailbox with hmb
  set n : Int := (mb.length : Int) with hn
  set offset1 : Int := max 0 (min n offset) with hoff
  set num1 : Int := min num_messages (n - offset1) with hnum
  by_cases hneg : num1 < 0
  · simp only [if_pos hneg]
    refine ⟨⟨[], mb.drop (n - offset1).toNat, ?_⟩, ?_⟩
    · simp [List.take_append_drop]
    · simp [List.length_take_le]
  · simp only [if_neg hneg]
    set j : Nat := (n - offset1).toNat with hj
    set i : Nat := (n - num1 - offset1).toNat with hi
    have hij : i ≤ j := by
      apply Int.toNat_le_toNat
      omega
    refine ⟨⟨mb.take i, mb.drop j, ?_⟩, ?_⟩
    · have h1 : mb.take i = (mb.take j).take i := by
        rw [List.take_take, min_eq_left hij]
      calc mb.take i ++ (mb.take j).drop i ++ mb.drop j
          = ((mb.take j).take i ++ (mb.take j).drop i) ++ mb.drop j := by
            rw [h1, List.append_assoc]
        _ = mb.take j ++ mb.drop j := by rw [List.take_append_drop]
        _ = mb := List.take_append_drop _ _
    · have h2 := List.length_take_le j mb
      have h3 : ((mb.take j).drop i).length = (mb.take j).length - i :=
        List.length_drop _ _
      omega

/-! ### C8: pop_unread_messages moves a head segment of unread into read -/

/-- C8: for every user state and every integer n, pop_unread_messages splits
the unread queue into the moved head segment and the remaining suffix (all
of it when n is negative, never more than available), appends the moved
messages in order to the read mailbox, and returns exactly the moved
messages; when the mailboxes are duplicate-free and disjoint (the documented
state invariant: a message lives in exactly one mailbox), no message is in
both lists afterwards. -/
theorem C8_pop_unread_messages_spec (u : User) (k : Int) :
    (u.pop_unread_messages k).2 ++ (u.pop_unread_messages k).1.message_queue
        = u.message_queue ∧
    (u.pop_unread_messages k).1.read_mailbox
        = u.read_mailbox ++ (u.pop_unread_messages k).2 ∧
    (u.pop_unread_messages k).2.length
        = min (if k < 0 then u.message_queue.length else k.toNat)
            u.message_queue.length ∧
    (k < 0 → (u.pop_unread_messages k).1.message_queue = []) ∧
    ((u.message_queue ++ u.read_mailbox).Nodup →
      ∀ m ∈ (u.pop_unread_messages k).1.message_queue,
        m ∉ (u.pop_unread_messages k).1.read_mailbox) := by
  unfold User.pop_unread_messages
  set q := u.message_queue with hq
  set n : Nat := if k < 0 then q.length else k.toNat with hn
  refine ⟨List.take_append_drop _ _, rfl, List.length_take _ _, ?_, ?_⟩
  · intro hk
    simp only [hn, if_pos hk]
    exact List.drop_length q
  · intro hnodup m hm hmem
    have hq_nodup : q.Nodup ∧ u.read_mailbox.Nodup ∧ q.Disjoint u.read_mailbox :=
      List.nodup_append.mp hnodup
    have hmq : m ∈ q := List.mem_of_mem_drop hm
    rcases List.mem_append.mp hmem with hread | htaken
    · exact hq_nodup.2.2 hmq hread
    · have hsplit : (q.take n ++ q.drop n).Nodup := by
        rw [List.take_append_drop]; exact hq_nodup.1
      exact (List.nodup_append.mp hsplit).2.2 htaken hm

/-! ### C1: AppendEntries duplicates entries already present (code bug) -/

/-- A follower holding the single entry (term 1, index 0). -/
def stC1 : RaftState :=
  ⟨1, none, .follower, none, [⟨1, 0, "a", "create_account"⟩], 0, 0⟩

/-- A leader retransmission carrying that same entry plus one new entry:
prevLogIndex 0 with matching prevLogTerm, entries for indices 0 and 1.
This arises when next_index has been decremented to 1 after a reject. -/
def reqC1 : AERequest :=
  ⟨1, "n0", 0, 1,
    [⟨1, 0, "a", "create_account"⟩, ⟨1, 1, "b", "send_message"⟩], 0⟩

/-- C1 (code bug): on a consistency-check-passing AppendEntries whose
entries overlap the existing log, the handler appends EVERY incoming entry
(the source slices new_entries[append_start - append_start:], which is the
whole list), so the entry already held at index 0 is appended again: the
resulting log has index fields [0, 0, 1] - two entries for index 0 -
instead of one entry per index as the claim (and the Raft protocol)
requires. -/
theorem C1_appendEntries_duplicates :
    (handleAppendEntries stC1 reqC1).2.success = true ∧
    ((handleAppendEntries stC1 reqC1).1.log.map RaftEntry.index = [0, 0, 1]) ∧
    ¬ ((handleAppendEntries stC1 reqC1).1.log.map RaftEntry.index).Nodup := by
  decide

/-! ### C4: legacy SendMessage allocates the message id at ingress (code bug) -/

/-- Legacy server state: one account bob, state timestamp already at 41. -/
def lsC4 : LegacyServerState := ⟨[("bob", ⟨"bob", [], []⟩)], 41⟩

/-- Raft chat state machine state: one account bob, fresh id counter. -/
def rsC4 : RaftServerState := ⟨[("bob", ⟨"pw", [], []⟩)], 0, []⟩

/-- C4 (code bug): the legacy ChatServicer.SendMessage path (server.py
lines 125-153) constructs the Message at request ingress with id equal to
the current server_state.timestamp - here 41 - rather than allocating from
a replicated per-message counter inside apply; the Raft state machine
(RaftNode._send_message), by contrast, allocates from next_message_id
inside apply and delivers id 0 for the same logical first message.  An id
assigned at ingress depends on local, non-replicated history, which is
exactly what the spec forbids. -/
theorem C4_legacy_ingress_id_allocation :
    lsC4.sendMessage "alice" "bob" "hi" false =
      .ok ⟨[("bob", ⟨"bob", [⟨41, "alice", "hi"⟩], []⟩)], 42⟩ ∧
    (rsC4.sendMessage "alice" "bob" "hi").1 =
      ⟨[("bob", ⟨"pw", [0], []⟩)], 1, [(0, ⟨0, "alice", "hi"⟩)]⟩ := by
  constructor <;> rfl

/-! ### C7: AccountManager.delete_account raises on a missing name (code bug) -/

/-- A manager holding the single account bob. -/
def amC7 : AccountManager := ⟨[("bob", ⟨"bob", [], []⟩)], [("bob", ([1], [2]))]⟩

/-- The same state as the raft CSM sees it after bob is deleted. -/
def rsC7 : RaftServerState := ⟨[], 0, []⟩

/-- C7 (code bug): deleting bob once succeeds and empties the manager, but
deleting again - i.e. deleting a name that has no account - hits
dict.pop without a default and raises KeyError instead of succeeding as a
no-op, so DeleteAccount twice is not equal to DeleteAccount once on
AccountManager.  The guarded implementations (ServerState.delete_account
and RaftNode._delete_account) are no-ops on a missing name, as the last
conjunct shows for the raft state machine. -/
theorem C7_delete_account_raises_on_missing :
    amC7.delete_account "bob" = .ok ⟨[], []⟩ ∧
    (AccountManager.mk [] []).delete_account "bob" = .error "KeyError" ∧
    rsC7.deleteAccount "bob" = (rsC7, false) :=
  ⟨rfl, rfl, rfl⟩

/-- A concrete user for the C8 witness: two unread, one read message. -/
def uC8 : User := ⟨"u", [⟨1, "a", "x"⟩, ⟨2, "b", "y"⟩], [⟨3, "c", "z"⟩]⟩

/-- C8 witness: at a concrete well-formed user state, popping all (-1)
empties the unread queue, and after popping one message the remaining
unread message is not in the read mailbox. -/
theorem C8_pop_unread_messages_witness :
    (uC8.pop_unread_messages (-1)).1.message_queue = [] ∧
    (⟨2, "b", "y"⟩ : Message) ∉ (uC8.pop_unread_messages 1).1.read_mailbox :=
  ⟨(C8_pop_unread_messages_spec uC8 (-1)).2.2.2.1 (by decide),
   (C8_pop_unread_messages_spec uC8 1).2.2.2.2 (by decide) _ (by decide)⟩

/-! ### C2: RequestVote grant condition -/

/-- The up-to-date comparison from the spec: the candidate's
(lastLogTerm, lastLogIndex) is lexicographically at least the receiver's. -/
def candidateLogUpToDate (req : RVRequest) (log : List RaftEntry) : Prop :=
  lastLogTermOf log < req.lastLogTerm ∨
    (req.lastLogTerm = lastLogTermOf log ∧ lastLogIndexOf log ≤ req.lastLogIndex)

/-- The votedFor value at the point the handler evaluates the grant
condition: the vote is cleared first when the request carries a newer term
(spec: update term, become follower and clear vote before evaluating). -/
def effectiveVotedFor (st : RaftState) (req : RVRequest) : Option String :=
  if st.currentTerm < req.term then none else st.votedFor

/-- C2: the vote is granted iff (a) the request term is at least
currentTerm, (b) the candidate's log is at least as up-to-date, comparing
(lastLogTerm, lastLogIndex) lexicographically, and (c) votedFor - after the
newer-term reset - is none or the candidate itself; in particular a
receiver with a higher last log term never grants. -/
theorem C2_requestVote_grant_iff (st : RaftState) (req : RVRequest) :
    ((handleRequestVote st req).2.voteGranted = true ↔
      (st.currentTerm ≤ req.term ∧ candidateLogUpToDate req st.log ∧
        (effectiveVotedFor st req = none ∨
          effectiveVotedFor st req = some req.candidateId))) ∧
    (req.lastLogTerm < lastLogTermOf st.log →
      (handleRequestVote st req).2.voteGranted = false) := by
  unfold handleRequestVote candidateLogUpToDate effectiveVotedFor
  unfold RaftState.becomeFollower
  simp only [gt_iff_lt, ge_iff_le]
  split_ifs with h1 h2 h3 <;> simp_all <;> try omega
  · rename_i hvote
    intro hup
    by_cases hv : st.votedFor = none ∨ st.votedFor = some req.candidateId
    · exfalso
      have h5 := hvote hv
      rcases hup with h | ⟨ha, hb⟩
      · omega
      · have h6 := h5.2 ha
        omega
    · push_neg at hv
      exact hv

/-- C2 witness concrete inputs: a receiver whose last log term is 5 and a
candidate whose last log term is only 3, on a newer term. -/
def stC2 : RaftState := ⟨4, none, .follower, none, [⟨5, 0, "a", "c"⟩], 0, 0⟩

def reqC2 : RVRequest := ⟨6, "cand", 0, 3⟩

/-- C2 witness: the concrete stale-log candidate is refused, by the second
conjunct of the grant characterization; the first conjunct also applies:
the grant condition fails because the log is not up-to-date. -/
theorem C2_requestVote_grant_witness :
    (handleRequestVote stC2 reqC2).2.voteGranted = false :=
  (C2_requestVote_grant_iff stC2 reqC2).2 (by decide)

/-! ### C6: CreateAccount semantics -/

lemma string_length_eq_zero_iff (s : String) : s.length = 0 ↔ s = "" := by
  constructor
  · intro h
    cases s with
    | mk data =>
      cases data with
      | nil => rfl
      | cons c cs => simp [String.length] at h
  · intro h
    subst h
    rfl

/-- When a key is absent, no pair in the list matches the filter on it. -/
lemma filter_eq_nil_of_lookup_none {α : Type} (l : List (String × α)) (k : String)
    (h : l.lookup k = none) : l.filter (fun p => p.1 == k) = [] := by
  rw [List.filter_eq_nil_iff]
  intro p hp
  have hne : k ≠ p.1 := by
    have := List.lookup_eq_none_iff.mp h p hp
    simpa using this
  simp [Ne.symm hne]

/-- C6: create_account with an empty or taken name returns an error and
leaves the state unchanged; with a fresh nonempty name it appends an
account with empty mailboxes (and its credential record) and returns no
error; consequently a second create_account with the same name returns the
taken error, leaves the state unchanged, and the state holds exactly one
account under that name. -/
theorem C6_create_account_spec (am : AccountManager) (name pw pw2 : String)
    (h1 h2 : Bytes × Bytes) :
    ((name = "" ∨ (am.accounts.lookup name).isSome) →
      ∃ err, am.create_account name pw h1 = (am, some err)) ∧
    (name ≠ "" → am.accounts.lookup name = none →
      am.create_account name pw h1 =
        ({ accounts := am.accounts ++ [(name, ⟨name, [], []⟩)],
           login_info := am.login_info ++ [(name, h1)] }, none)) ∧
    (name ≠ "" → am.accounts.lookup name = none →
      ((am.create_account name pw h1).1.accounts.filter
          (fun p => p.1 == name)).length = 1 ∧
      (am.create_account name pw h1).1.create_account name pw2 h2 =
        ((am.create_account name pw h1).1, some "Username already taken")) := by
  unfold AccountManager.create_account
  refine ⟨?_, ?_, ?_⟩
  · rintro (hname | htaken)
    · subst hname
      exact ⟨"Invalid username", rfl⟩
    · by_cases hname : name.length = 0
      · simp only [if_pos hname]
        exact ⟨"Invalid username", rfl⟩
      · simp only [if_neg hname, htaken, if_pos]
        exact ⟨"Username already taken", rfl⟩
  · intro hname hnone
    have hlen : ¬ name.length = 0 := fun h0 =>
      hname ((string_length_eq_zero_iff name).mp h0)
    simp [if_neg hlen, hnone]
  · intro hname hnone
    have hlen : ¬ name.length = 0 := fun h0 =>
      hname ((string_length_eq_zero_iff name).mp h0)
    have hfresh : (am.accounts.lookup name).isSome = false := by
      simp [hnone]
    simp only [if_neg hlen, hfresh, Bool.false_eq_true, if_false]
    constructor
    · rw [List.filter_append, filter_eq_nil_of_lookup_none am.accounts name hnone]
      simp
    · have hsecond : ((am.accounts ++ [(name, (⟨name, [], []⟩ : User))]).lookup name)
          = some ⟨name, [], []⟩ := by
        rw [List.lookup_append, hnone]
        simp
      simp only [if_neg hlen, hsecond]
      rfl

/-- C6 witness concrete input: a fresh manager and the name alice. -/
def amC6 : AccountManager := AccountManager.init

/-- C6 witness: creating alice twice from the empty manager leaves exactly
one alice account and returns the taken error on the second call; creating
the empty name errors without touching the state. -/
theorem C6_create_account_witness :
    (∃ err, amC6.create_account "" "pw" ([], []) = (amC6, some err)) ∧
    ((amC6.create_account "alice" "pw" ([1], [2])).1.accounts.filter
        (fun p => p.1 == "alice")).length = 1 ∧
    (amC6.create_account "alice" "pw" ([1], [2])).1.create_account
        "alice" "pw" ([3], [4]) =
      ((amC6.create_account "alice" "pw" ([1], [2])).1,
        some "Username already taken") :=
  ⟨(C6_create_account_spec amC6 "" "pw" "pw" ([], []) ([], [])).1 (Or.inl rfl),
   ((C6_create_account_spec amC6 "alice" "pw" "pw" ([1], [2]) ([3], [4])).2.2
      (by decide) (by decide)).1,
   ((C6_create_account_spec amC6 "alice" "pw" "pw" ([1], [2]) ([3], [4])).2.2
      (by decide) (by decide)).2⟩

/-! ### C3: leader commit advancement -/

/-- The foldl underlying _update_commit_index, over an arbitrary candidate
range: keep the last range element satisfying p, or the seed. -/
def pickLast (p : Nat → Prop) [DecidablePred p] (s k a : Nat) : Nat :=
  (List.range' s k).foldl (fun acc n => if p n then n else acc) a

lemma pickLast_spec (p : Nat → Prop) [DecidablePred p] :
    ∀ (k s a : Nat), a < s →
      a ≤ pickLast p s k a ∧
      (pickLast p s k a = a ∨
        (s ≤ pickLast p s k a ∧ pickLast p s k a < s + k ∧ p (pickLast p s k a))) ∧
      (∀ i, i < k → p (s + i) → s + i ≤ pickLast p s k a) := by
  intro k
  induction k with
  | zero =>
    intro s a ha
    simp [pickLast]
  | succ k ih =>
    intro s a ha
    have hstep : pickLast p s (k + 1) a = pickLast p (s + 1) k (if p s then s else a) := by
      unfold pickLast
      rw [List.range'_succ, List.foldl_cons]
    by_cases hp : p s
    · rw [hstep, if_pos hp]
      obtain ⟨ih1, ih2, ih3⟩ := ih (s + 1) s (by omega)
      refine ⟨by omega, ?_, ?_⟩
      · rcases ih2 with h | ⟨hh1, hh2, hh3⟩
        · right
          rw [h]
          exact ⟨le_refl s, by omega, hp⟩
        · right
          exact ⟨by omega, by omega, hh3⟩
      · intro i hik hpi
        cases i with
        | zero =>
          have h0 : s + 0 = s := by omega
          rw [h0]
          exact ih1
        | succ j =>
          have hj := ih3 j (by omega) (by
            have hsj : s + 1 + j = s + (j + 1) := by omega
            rw [hsj]
            exact hpi)
          omega
    · rw [hstep, if_neg hp]
      obtain ⟨ih1, ih2, ih3⟩ := ih (s + 1) a (by omega)
      refine ⟨ih1, ?_, ?_⟩
      · rcases ih2 with h | ⟨hh1, hh2, hh3⟩
        · left; exact h
        · right
          exact ⟨by omega, by omega, hh3⟩
      · intro i hik hpi
        cases i with
        | zero =>
          exfalso
          apply hp
          have h0 : s + 0 = s := by omega
          rw [h0] at hpi
          exact hpi
        | succ j =>
          have hj := ih3 j (by omega) (by
            have hsj : s + 1 + j = s + (j + 1) := by omega
            rw [hsj]
            exact hpi)
          omega

/-- Characterization of _update_commit_index, shared by the C3 and C5
theorems: the result is at least the old commit index; it either stays put
or lands on a qualifying index within the log; and it dominates every
qualifying index of the scanned range. -/
lemma updateCommitIndex_spec (log : List RaftEntry) (term ci : Nat) (ms : List Nat) :
    ci ≤ updateCommitIndex log term ci ms ∧
    (updateCommitIndex log term ci ms = ci ∨
      (ci < updateCommitIndex log term ci ms ∧
        updateCommitIndex log term ci ms ≤ log.length ∧
        commitCond log term ms (updateCommitIndex log term ci ms))) ∧
    (∀ n, ci < n → n ≤ log.length → commitCond log term ms n →
      n ≤ updateCommitIndex log term ci ms) := by
  have heq : updateCommitIndex log term ci ms
      = pickLast (commitCond log term ms) (ci + 1) (log.length - ci) ci := rfl
  obtain ⟨ha, hb, hc⟩ :=
    pickLast_spec (commitCond log term ms) (log.length - ci) (ci + 1) ci (by omega)
  rw [heq]
  refine ⟨ha, ?_, ?_⟩
  · rcases hb with h | ⟨h1, h2, h3⟩
    · left; exact h
    · right
      exact ⟨by omega, by omega, h3⟩
  · intro n hn hnlen hcond
    have hi := hc (n - (ci + 1)) (by omega) (by
      have hsn : ci + 1 + (n - (ci + 1)) = n := by omega
      rw [hsn]
      exact hcond)
    omega

/-- C3: after a matchIndex change the leader sets commitIndex to the
largest N in (commitIndex, len(log)] such that a majority of nodes -
counting the leader itself - have matchIndex at least N and log[N] carries
the current term; commitIndex never decreases, never lands on an index
without the majority-and-current-term property (so prior-term entries are
never committed by count alone, and no index lacking majority replication
is passed: majority holds at the new commitIndex and, the count being
antitone, at every index below it). -/
theorem C3_update_commit_index_spec (log : List RaftEntry) (term ci : Nat)
    (ms : List Nat) :
    ci ≤ updateCommitIndex log term ci ms ∧
    (updateCommitIndex log term ci ms = ci ∨
      (ci < updateCommitIndex log term ci ms ∧
        updateCommitIndex log term ci ms ≤ log.length ∧
        commitCond log term ms (updateCommitIndex log term ci ms))) ∧
    (∀ n, ci < n → n ≤ log.length → commitCond log term ms n →
      n ≤ updateCommitIndex log term ci ms) :=
  updateCommitIndex_spec log term ci ms

/-- C3 witness: a two-entry current-term log with one peer whose
matchIndex covers both entries (a 2-server cluster): both indices qualify,
so the new commitIndex is the largest, 2. -/
def logC3 : List RaftEntry := [⟨1, 0, "", "c"⟩, ⟨1, 1, "", "c"⟩]

theorem C3_update_commit_index_witness :
    2 ≤ updateCommitIndex logC3 1 0 [2] ∧ updateCommitIndex logC3 1 0 [2] = 2 :=
  ⟨(C3_update_commit_index_spec logC3 1 0 [2]).2.2 2 (by decide) (by decide)
      (by decide),
   by decide⟩

/-! ### C5: lastApplied ≤ commitIndex ≤ len(log) -/

lemma applyLogEntries_ok {α : Type} (g : α → RaftEntry → α) (log : List RaftEntry) :
    ∀ (k : Nat) (ss : α) (la ci : Nat), la + k = ci → ci ≤ log.length →
      ∃ r : α × Nat, applyLogEntries g log ss la ci = .ok r ∧ r.2 = ci := by
  intro k
  induction k with
  | zero =>
    intro ss la ci h hlen
    unfold applyLogEntries
    rw [if_neg (show ¬ la < ci by omega)]
    exact ⟨(ss, la), rfl, by omega⟩
  | succ k ih =>
    intro ss la ci h hlen
    unfold applyLogEntries
    rw [if_pos (show la < ci by omega)]
    cases hget : log.get? la with
    | none =>
      exfalso
      have hout := List.get?_eq_none.mp hget
      omega
    | some e =>
      exact ih (g ss e) (la + 1) ci (by omega) hlen

lemma applyLogEntries_crash {α : Type} (g : α → RaftEntry → α) (log : List RaftEntry) :
    ∀ (k : Nat) (ss : α) (la ci : Nat), la + k = log.length → log.length < ci →
      ∃ ss' : α, applyLogEntries g log ss la ci = .error (ss', log.length + 1) := by
  intro k
  induction k with
  | zero =>
    intro ss la ci h hci
    unfold applyLogEntries
    rw [if_pos (show la < ci by omega)]
    have hget : log.get? la = none := List.get?_eq_none.mpr (by omega)
    rw [hget]
    refine ⟨ss, ?_⟩
    have hla : la + 1 = log.length + 1 := by omega
    rw [hla]
  | succ k ih =>
    intro ss la ci h hci
    unfold applyLogEntries
    rw [if_pos (show la < ci by omega)]
    cases hget : log.get? la with
    | none =>
      exfalso
      have hout := List.get?_eq_none.mp hget
      omega
    | some e =>
      exact ih (g ss e) (la + 1) ci (by omega) hci

/-- What AppendEntries handling does to the volatile indices: lastApplied
is untouched; commitIndex either stays or becomes
min(leaderCommit, len(new log)) and only when leaderCommit exceeds it;
the log changes only on success. -/
lemma handleAppendEntries_cases (st : RaftState) (req : AERequest) :
    (handleAppendEntries st req).1.lastApplied = st.lastApplied ∧
    ((handleAppendEntries st req).1.commitIndex = st.commitIndex ∨
      ((handleAppendEntries st req).1.commitIndex =
          min req.leaderCommit (handleAppendEntries st req).1.log.length ∧
        st.commitIndex < req.leaderCommit)) ∧
    ((handleAppendEntries st req).1.log = st.log ∨
      (handleAppendEntries st req).2.success = true) := by
  unfold handleAppendEntries RaftState.becomeFollower
  split_ifs with h1 h2 h3 h4 <;> simp_all <;>
    first
      | done
      | (split_ifs <;> simp_all)

/-- A follower whose whole three-entry term-1 log is committed and applied
(lastApplied = commitIndex = len(log) = 3). -/
def stC5 : RaftState :=
  ⟨1, none, .follower, none,
    [⟨1, 0, "", "c"⟩, ⟨1, 1, "", "c"⟩, ⟨1, 2, "", "c"⟩], 3, 3⟩

/-- An AppendEntries from a term-2 leader whose single entry conflicts at
index 0 and whose leaderCommit (0) does not raise the follower's
commitIndex. -/
def reqC5 : AERequest := ⟨2, "n1", -1, 0, [⟨2, 0, "", "c"⟩], 0⟩

/-- C5 counterexample: the claim as stated fails on the code.  The
pre-state satisfies lastApplied ≤ commitIndex ≤ len(log), the handler
accepts the request (success), truncates the log at the conflict down to
one entry, and leaves commitIndex at 3: afterwards commitIndex > len(log).
The handler lowers neither commitIndex nor lastApplied when it truncates
below them. -/
theorem C5_invariant_counterexample :
    (stC5.lastApplied ≤ stC5.commitIndex ∧ stC5.commitIndex ≤ stC5.log.length) ∧
    (handleAppendEntries stC5 reqC5).2.success = true ∧
    (handleAppendEntries stC5 reqC5).1.commitIndex = 3 ∧
    (handleAppendEntries stC5 reqC5).1.log.length = 1 ∧
    ¬ ((handleAppendEntries stC5 reqC5).1.commitIndex ≤
        (handleAppendEntries stC5 reqC5).1.log.length) := by
  decide

/-- C5 as amended: every individual assignment respects the bound -
AppendEntries preserves lastApplied ≤ commitIndex ≤ len(log) whenever it
does not truncate the log below the incoming commitIndex (standard Raft
guarantees this, the handler does not check it); leader commit advancement
moves commitIndex only within [commitIndex, len(log)]; the apply loop
advances lastApplied exactly up to commitIndex whenever
commitIndex ≤ len(log); and when commitIndex exceeds len(log) the apply
loop's log read raises IndexError, killing the apply thread with
lastApplied stuck at len(log) + 1. -/
theorem C5_invariant_preservation {α : Type} (st : RaftState) (req : AERequest)
    (log : List RaftEntry) (term ci : Nat) (ms : List Nat)
    (g : α → RaftEntry → α) (ss : α) (la la2 ci2 : Nat) :
    (st.lastApplied ≤ st.commitIndex → st.commitIndex ≤ st.log.length →
      st.commitIndex ≤ (handleAppendEntries st req).1.log.length →
      ((handleAppendEntries st req).1.lastApplied ≤
          (handleAppendEntries st req).1.commitIndex ∧
        (handleAppendEntries st req).1.commitIndex ≤
          (handleAppendEntries st req).1.log.length)) ∧
    (la ≤ ci → ci ≤ log.length →
      la ≤ updateCommitIndex log term ci ms ∧
      updateCommitIndex log term ci ms ≤ log.length) ∧
    (la2 ≤ ci2 → ci2 ≤ log.length →
      ∃ r : α × Nat, applyLogEntries g log ss la2 ci2 = .ok r ∧ r.2 = ci2) ∧
    (la2 ≤ log.length → log.length < ci2 →
      ∃ ss' : α, applyLogEntries g log ss la2 ci2 =
        .error (ss', log.length + 1)) := by
  refine ⟨?_, ?_, ?_, ?_⟩
  · intro hla hci hpost
    obtain ⟨hla_eq, hci_cases, -⟩ := handleAppendEntries_cases st req
    rcases hci_cases with h | ⟨h, hlt⟩
    · rw [hla_eq, h]
      exact ⟨hla, hpost⟩
    · rw [hla_eq, h]
      constructor
      · omega
      · omega
  · intro h1 h2
    obtain ⟨ha, hb, -⟩ := updateCommitIndex_spec log term ci ms
    constructor
    · omega
    · rcases hb with h | ⟨-, hlen, -⟩
      · omega
      · exact hlen
  · intro h1 h2
    exact applyLogEntries_ok g log (ci2 - la2) ss la2 ci2 (by omega) h2
  · intro h1 h2
    exact applyLogEntries_crash g log (log.length - la2) ss la2 ci2 (by omega) h2

/-- Concrete inputs for the C5 witness: a one-entry committed log and a
same-term heartbeat that leaves it unchanged. -/
def stC5w : RaftState := ⟨1, none, .follower, none, [⟨1, 0, "", "c"⟩], 1, 0⟩

def logC5w : List RaftEntry := [⟨1, 0, "", "c"⟩, ⟨1, 1, "", "c"⟩]

def reqC5w : AERequest := ⟨1, "L", 0, 1, [], 0⟩

/-- C5 witness: the amended preservation applied at concrete inputs - the
heartbeat keeps 0 ≤ 1 ≤ 1, commit advancement stays within the two-entry
log, the apply loop stops exactly at commitIndex 2 when it is within the
log, and with commitIndex 3 past the two-entry log it crashes with
lastApplied stuck at 3. -/
theorem C5_invariant_witness :
    ((handleAppendEntries stC5w reqC5w).1.lastApplied ≤
        (handleAppendEntries stC5w reqC5w).1.commitIndex ∧
      (handleAppendEntries stC5w reqC5w).1.commitIndex ≤
        (handleAppendEntries stC5w reqC5w).1.log.length) ∧
    (0 ≤ updateCommitIndex logC5w 1 0 [2] ∧
      updateCommitIndex logC5w 1 0 [2] ≤ logC5w.length) ∧
    (∃ r : Nat × Nat, applyLogEntries (fun (a : Nat) _ => a) logC5w 7 0 2
        = .ok r ∧ r.2 = 2) ∧
    (∃ ss' : Nat, applyLogEntries (fun (a : Nat) _ => a) logC5w 7 0 3
        = .error (ss', 3)) :=
  ⟨(C5_invariant_preservation stC5w reqC5w logC5w 1 0 [2]
      (fun (a : Nat) _ => a) 7 0 0 2).1 (by decide) (by decide) (by decide),
   (C5_invariant_preservation stC5w reqC5w logC5w 1 0 [2]
      (fun (a : Nat) _ => a) 7 0 0 2).2.1 (by decide) (by decide),
   (C5_invariant_preservation stC5w reqC5w logC5w 1 0 [2]
      (fun (a : Nat) _ => a) 7 0 0 2).2.2.1 (by decide) (by decide),
   (C5_invariant_preservation stC5w reqC5w logC5w 1 0 [2]
      (fun (a : Nat) _ => a) 7 0 0 3).2.2.2 (by decide) (by decide)⟩

/-! ### C9: snapshot then restore round-trips -/

lemma triples_roundtrip (ts : List (Nat × String × String)) :
    (ts.map tripleToMessage).map messageToTriple = ts := by
  induction ts with
  | nil => rfl
  | cons t rest ih =>
    obtain ⟨a, b, c⟩ := t
    simp [tripleToMessage, messageToTriple, ih]

lemma snapshotAccounts_keys {β : Type} (enc : Bytes → β)
    (info : List (String × (Bytes × Bytes))) :
    ∀ (l : List (String × User)) (snap : List (String × UserSnapshot β)),
      snapshotAccounts enc info l = some snap →
      snap.map Prod.fst = l.map Prod.fst := by
  intro l
  induction l with
  | nil =>
    intro snap h
    simp only [snapshotAccounts, Option.some.injEq] at h
    subst h
    rfl
  | cons p rest ih =>
    obtain ⟨uid, u⟩ := p
    intro snap h
    simp only [snapshotAccounts] at h
    cases hinfo : info.lookup uid with
    | none => rw [hinfo] at h; cases h
    | some hs =>
      obtain ⟨hh, ss⟩ := hs
      cases hrest : snapshotAccounts enc info rest with
      | none => rw [hinfo, hrest] at h; cases h
      | some r =>
        rw [hinfo, hrest] at h
        simp only [Option.some.injEq] at h
        subst h
        simp [ih r hrest]

/-- Adding an info record whose key occurs nowhere in the account list does
not change the snapshot. -/
lemma snapshotAccounts_cons_info {β : Type} (enc : Bytes → β)
    (info : List (String × (Bytes × Bytes))) (k : String) (v : Bytes × Bytes) :
    ∀ (l : List (String × User)), (∀ p ∈ l, p.1 ≠ k) →
      snapshotAccounts enc ((k, v) :: info) l = snapshotAccounts enc info l := by
  intro l
  induction l with
  | nil => intro _; rfl
  | cons p rest ih =>
    obtain ⟨uid, u⟩ := p
    intro hne
    have huid : uid ≠ k := hne (uid, u) (by simp)
    simp only [snapshotAccounts]
    have hlk : ((k, v) :: info).lookup uid = info.lookup uid := by
      simp [List.lookup_cons, beq_false_of_ne huid]
    rw [hlk, ih (fun p hp => hne p (by simp [hp]))]

lemma snapshot_load_roundtrip {β : Type} (enc : Bytes → β) (dec : β → Bytes)
    (hcodec : ∀ b, dec (enc b) = b) (info : List (String × (Bytes × Bytes))) :
    ∀ (l : List (String × User)) (snap : List (String × UserSnapshot β)),
      (l.map Prod.fst).Nodup →
      snapshotAccounts enc info l = some snap →
      snapshotAccounts enc
        (snap.map (fun p => (p.1, (dec p.2.password_hash, dec p.2.salt))))
        (snap.map (fun p =>
          (p.1, (⟨p.1, p.2.message_queue.map tripleToMessage,
            p.2.read_mailbox.map tripleToMessage⟩ : User)))) = some snap := by
  intro l
  induction l with
  | nil =>
    intro snap hnodup h
    simp only [snapshotAccounts, Option.some.injEq] at h
    subst h
    rfl
  | cons p rest ih =>
    obtain ⟨uid, u⟩ := p
    intro snap hnodup h
    simp only [snapshotAccounts] at h
    cases hinfo : info.lookup uid with
    | none => rw [hinfo] at h; cases h
    | some hs =>
      obtain ⟨hh, ss⟩ := hs
      cases hrest : snapshotAccounts enc info rest with
      | none => rw [hinfo, hrest] at h; cases h
      | some r =>
        rw [hinfo, hrest] at h
        simp only [Option.some.injEq] at h
        subst h
        have hkeys_rest : (rest.map Prod.fst).Nodup := (List.nodup_cons.mp hnodup).2
        have huid_not : uid ∉ rest.map Prod.fst := (List.nodup_cons.mp hnodup).1
        have hk := snapshotAccounts_keys enc info rest r hrest
        simp only [List.map_cons, snapshotAccounts, List.lookup_cons_self]
        have hne : ∀ p ∈ r.map (fun p =>
            (p.1, (⟨p.1, p.2.message_queue.map tripleToMessage,
              p.2.read_mailbox.map tripleToMessage⟩ : User))), p.1 ≠ uid := by
          intro p hp
          obtain ⟨q, hq, hpq⟩ := List.mem_map.mp hp
          have hq1 : q.1 ∈ r.map Prod.fst := List.mem_map.mpr ⟨q, hq, rfl⟩
          rw [hk] at hq1
          intro hcontra
          apply huid_not
          have hp1 : p.1 = q.1 := by rw [← hpq]
          rw [hp1] at hcontra
          rw [← hcontra]
          exact hq1
        rw [snapshotAccounts_cons_info enc _ uid _ _ hne]
        rw [ih r hkeys_rest hrest]
        simp [hcodec, triples_roundtrip]
        exact ⟨fun a _ => rfl, fun a _ => rfl⟩

/-- C9: for every account-manager state with unique account names (the dict
invariant) whose snapshot succeeds (every account has its credential
record), loading the snapshot into a fresh manager and snapshotting again
yields exactly the same snapshot: account order, credential hash and salt
(through the codec), and both ordered message lists are preserved.  The
base64 codec is abstract; the only assumption is that decoding inverts
encoding. -/
theorem C9_snapshot_restore_roundtrip {β : Type} (enc : Bytes → β)
    (dec : β → Bytes) (am : AccountManager)
    (snap : List (String × UserSnapshot β))
    (hcodec : ∀ b, dec (enc b) = b)
    (hkeys : (am.accounts.map Prod.fst).Nodup)
    (hsnap : am.get_state enc = some snap) :
    (AccountManager.load_state dec snap).get_state enc = some snap := by
  unfold AccountManager.get_state AccountManager.load_state
  exact snapshot_load_roundtrip enc dec hcodec am.login_info am.accounts snap
    hkeys hsnap

/-- Concrete manager for the C9 witness: one account with one unread
message and a credential pair. -/
def amC9 : AccountManager :=
  ⟨[("a", ⟨"a", [⟨1, "b", "c"⟩], []⟩)], [("a", ([3], [4]))]⟩

/-- Its snapshot under the identity codec. -/
def snapC9 : List (String × UserSnapshot Bytes) :=
  [("a", ⟨[3], [4], [(1, "b", "c")], []⟩)]

/-- C9 witness: the round trip at the concrete manager, with the identity
codec discharging the codec hypothesis. -/
theorem C9_snapshot_restore_witness :
    (AccountManager.load_state (fun b => b) snapC9).get_state
      (fun b : Bytes => b) = some snapC9 :=
  C9_snapshot_restore_roundtrip (fun b => b) (fun b => b) amC9 snapC9
    (fun _ => rfl) (by decide) (by decide)

end ChatSystem
